import Mathlib

/-
A shallow embedding of src/powerhour_generator.py.

Modelling conventions:
* Python floats (durations) are modelled as rationals.
* The external tools (ffprobe / ffmpeg) are oracles.  A probe or analysis
  invocation is an `Except Unit String`: `error` stands for a non-zero exit
  status (`subprocess.CalledProcessError`), `ok out` for a zero exit with
  captured output `out`.  An encode invocation made through `run_command`
  is a `Bool` (its return-code check).
* Python dicts built by the loudness parser are association lists in
  insertion order; lookup takes the most recent binding, matching dict
  overwrite semantics.
* Filesystem paths are lists of components; `os.path.join(a, b)` for a
  relative name `b` is modelled as appending one component.
* String manipulation is written by structural recursion over character
  lists so that every definition evaluates inside the kernel.
-/

/-- Whitespace for Python `str.strip`. -/
def isPySpace (c : Char) : Bool := c.isWhitespace

/-- Python `str.strip()` on a character list: drop whitespace at both ends. -/
def trimChars (cs : List Char) : List Char :=
  ((cs.dropWhile isPySpace).reverse.dropWhile isPySpace).reverse

/-- Python `str.strip()`. -/
def trimStr (s : String) : String := String.mk (trimChars s.toList)

/-- Lower-cases every character. -/
def lowerStr (s : String) : String := String.mk (s.toList.map Char.toLower)

/-- Splitting on every occurrence of a separator character, keeping empty
pieces, as Python `s.split(sep)` does (helper carrying the current piece
reversed). -/
def splitCharAux (sep : Char) : List Char → List Char → List (List Char)
  | [], acc => [acc.reverse]
  | c :: rest, acc =>
    if c = sep then acc.reverse :: splitCharAux sep rest []
    else splitCharAux sep rest (c :: acc)

/-- Python `s.split(sep)` for a one-character separator. -/
def splitChar (sep : Char) (cs : List Char) : List (List Char) :=
  splitCharAux sep cs []

/-- Numeric value of a (possibly empty) string of decimal digits. -/
def digitsToNat (cs : List Char) : Nat :=
  cs.foldl (fun a c => 10 * a + (c.toNat - 48)) 0

/-- Every character is a decimal digit. -/
def allDigits (cs : List Char) : Bool :=
  cs.all Char.isDigit

/-- Strips one optional leading sign, returning the sign and the remainder. -/
def stripSign : List Char → Int × List Char
  | '+' :: rest => (1, rest)
  | '-' :: rest => (-1, rest)
  | cs => (1, cs)

/-- Mantissa of a Python float literal: an optional sign followed by digits
with at most one decimal point and at least one digit overall. -/
def parseMantissa (cs : List Char) : Option ℚ :=
  let sg := (stripSign cs).1
  let body := (stripSign cs).2
  match splitChar '.' body with
  | [ip] =>
    if !ip.isEmpty && allDigits ip then some ((sg : ℚ) * digitsToNat ip) else none
  | [ip, fp] =>
    if (!ip.isEmpty || !fp.isEmpty) && allDigits ip && allDigits fp then
      some ((sg : ℚ) * ((digitsToNat ip : ℚ) + (digitsToNat fp : ℚ) / 10 ^ fp.length))
    else none
  | _ => none

/-- Python `float(s)` on the decimal-literal fragment: strips whitespace,
then accepts `[sign] digits [. digits] [e [sign] digits]` (case-insensitive
exponent marker).  `none` models `float` raising `ValueError`.  The `inf`,
`nan` and underscore-separator forms are not modelled; the inspection tool
prints plain decimal seconds. -/
def pyFloat (s : String) : Option ℚ :=
  let t := (trimChars s.toList).map Char.toLower
  match splitChar 'e' t with
  | [m] => parseMantissa m
  | [m, ex] =>
    let esg := (stripSign ex).1
    let ebody := (stripSign ex).2
    match parseMantissa m,
        (if !ebody.isEmpty && allDigits ebody then some (digitsToNat ebody) else none) with
    | some mv, some ev => some (mv * (10 : ℚ) ^ (esg * (ev : ℤ)))
    | _, _ => none
  | _ => none

/-- Outcome of `get_video_duration`: a measured value, the `None` returned
when `CalledProcessError` is caught, or an uncaught exception (`ValueError`
escaping from `float`). -/
inductive DurationResult where
  | val (d : ℚ)
  | unavailable
  | raises
deriving DecidableEq

/-- get_video_duration from the source: runs ffprobe, strips the output and
applies `float`.  A tool failure is caught and becomes `unavailable`; a
successful invocation whose output `float` rejects raises. -/
def get_video_duration : Except Unit String → DurationResult
  | Except.error _ => DurationResult.unavailable
  | Except.ok out =>
    match pyFloat (trimStr out) with
    | some d => DurationResult.val d
    | none => DurationResult.raises

/-- Splits a character list at its first colon: the part before it and the
part after it (Python `s.split(c, 1)` when `c` occurs in `s`). -/
def splitFirstColon (cs : List Char) : List Char × List Char :=
  (cs.takeWhile (fun c => c ≠ ':'), (cs.dropWhile (fun c => c ≠ ':')).drop 1)

/-- Key/value parsing of the loudness tool output in `analyze_loudness`:
for every line containing a colon, the stripped line is split at the first
colon and both halves are stripped again.  Insertion order is kept. -/
def parseLoudnessLines (out : String) : List (String × String) :=
  (splitChar '\n' out.toList).foldl
    (fun acc line =>
      if line.any (fun c => c = ':') then
        let kv := splitFirstColon (trimChars line)
        acc ++ [(String.mk (trimChars kv.1), String.mk (trimChars kv.2))]
      else acc) []

/-- analyze_loudness from the source: a tool failure is caught (a log is
written) and becomes `none`; a successful invocation returns the parsed
key/value mapping, with no validation of its contents. -/
def analyze_loudness : Except Unit String → Option (List (String × String))
  | Except.error _ => none
  | Except.ok out => some (parseLoudnessLines out)

/-- Python dict lookup on the association list built by the parser: the
most recent binding for the key, `none` when the key is absent (KeyError). -/
def dictGet (kvs : List (String × String)) (k : String) : Option String :=
  (kvs.reverse.find? (fun p => p.1 == k)).map (fun p => p.2)

/-- The `audio_filters` string built by `reencode_videos` (line 55): five
unchecked dict lookups interpolated into the loudnorm filter description.
`none` models the `KeyError` raised when a key is absent. -/
def audio_filters (m : List (String × String)) : Option String := do
  let mi ← dictGet m "input_i"
  let mlra ← dictGet m "input_lra"
  let mtp ← dictGet m "input_tp"
  let mthresh ← dictGet m "input_thresh"
  let moff ← dictGet m "target_offset"
  pure ("loudnorm=I=-23:LRA=7:TP=-1.5:measured_I=" ++ mi ++ ":measured_LRA=" ++ mlra ++
    ":measured_TP=" ++ mtp ++ ":measured_thresh=" ++ mthresh ++ ":offset=" ++ moff ++
    ":linear=true:print_format=summary")

/-- Retention test of the analysis loop (lines 91-96): `if duration and
duration >= 80:` followed by `if loudness_info:`.  The first argument is
what `get_video_duration` returned (`none` = `None`), the second what
`analyze_loudness` returned.  Note both conditions are Python truthiness
tests: a measured duration of `0.0` and an empty parsed mapping are falsy. -/
def retainsCandidate (dur : Option ℚ) (loud : Option (List (String × String))) : Bool :=
  match dur with
  | none => false
  | some d =>
    if d ≠ 0 ∧ 80 ≤ d then
      match loud with
      | none => false
      | some kvs => !kvs.isEmpty
    else false

/-- Python `int()` on a rational: truncation toward zero. -/
def pyInt (q : ℚ) : ℤ := if 0 ≤ q then ⌊q⌋ else ⌈q⌉

/-- The set of start offsets `random.randint(10, int(duration) - 70)` can
draw for a clip of measured duration `d` (line 107); `randint` includes
both endpoints. -/
def offsetRange (d : ℚ) : Finset ℤ := Finset.Icc 10 (pyInt d - 70)

/-- Decimal digit character. -/
def digitChar (d : Nat) : Char := Char.ofNat (48 + d)

/-- Zero-padded rendering of a counter, Python format `{0:04d}`, for the
counter values the script can produce (below 10000: at most 60 files are
sampled). -/
def pad4 (n : Nat) : String :=
  String.mk [digitChar (n / 1000 % 10), digitChar (n / 100 % 10),
    digitChar (n / 10 % 10), digitChar (n % 10)]

/-- Output artifact name `temp_clip_{i:04d}.mp4` of the i-th clip job. -/
def tempClipName (i : Nat) : String := "temp_clip_" ++ pad4 i ++ ".mp4"

/-- Log name `loudness_{i:04d}.log` of the i-th analysed candidate. -/
def loudnessLogName (i : Nat) : String := "loudness_" ++ pad4 i ++ ".log"

/-- Log name `video_{i:04d}.log` of the i-th clip job. -/
def videoLogName (i : Nat) : String := "video_" ++ pad4 i ++ ".log"

/-- os.path.join of a directory and one relative component. -/
def pjoin (dir : List String) (name : String) : List String := dir ++ [name]

/-- Whether path `p` lies inside directory `dir` (including `dir` itself):
`dir` is an initial run of `p`'s components. -/
def underDir (dir p : List String) : Bool := decide (p.take dir.length = dir)

/-- The entries the concat-manifest loop writes after the first segment:
one common-clip entry before every remaining segment (lines 123-125). -/
def interleaveTail {α : Type} (common : α) : List α → List α
  | [] => []
  | c :: rest => common :: c :: interleaveTail common rest

/-- The full concat manifest written at lines 120-125: every successful
segment in order, with the common-clip artifact before each one except the
first. -/
def buildConcatList {α : Type} (common : α) (clips : List α) : List α :=
  match clips with
  | [] => []
  | c :: rest => c :: interleaveTail common rest

/-- One planned clip job as the per-clip loop (lines 106-116) consumes it:
the loudness statistics bundled at planning time and the oracle answer the
external engine would give for its encode invocation. -/
structure ClipJob where
  stats : List (String × String)
  engineOk : Bool
deriving DecidableEq

/-- The per-clip encode loop (lines 105-116), `i` starting at 1 as in the
source's `enumerate(..., start=1)`: for each job, `reencode_videos` first
builds its audio filter (a `none` is the uncaught `KeyError`, which aborts
the whole loop and is reported as `Except.error` with the job index);
otherwise the engine runs, a success appends the job's artifact to the
clip list and a failure increments the failure counter. -/
def processJobsAux : Nat → List ClipJob → List String → Nat → Except Nat (List String × Nat)
  | _, [], clips, failed => Except.ok (clips, failed)
  | i, j :: rest, clips, failed =>
    match audio_filters j.stats with
    | none => Except.error i
    | some _ =>
      if j.engineOk then processJobsAux (i + 1) rest (clips ++ [tempClipName i]) failed
      else processJobsAux (i + 1) rest clips (failed + 1)

/-- The per-clip encode loop run from its initial state. -/
def processJobs (jobs : List ClipJob) : Except Nat (List String × Nat) :=
  processJobsAux 1 jobs [] 0

/-- An invocation of the external engine recorded by the sequencer model. -/
inductive EngineCall where
  | concatCall (manifest : List String) (out : String)
deriving DecidableEq

/-- What the assembly stage (lines 120-129) produces. -/
structure AssembleOutcome where
  manifest : List String
  calls : List EngineCall
  failureReported : Bool
  output : Option String
deriving DecidableEq

/-- The assembly stage, lines 120-129: writes the concat manifest for the
collected clip list and then unconditionally invokes the engine's concat
mode on it; the failure message is printed exactly when that invocation
fails.  The engine produces a valid output file exactly when it reports
success (a failed concatenation yields no valid output). -/
def sequencerStage (commonTemp : String) (clips : List String) (outFile : String)
    (engineOk : Bool) : AssembleOutcome :=
  ⟨buildConcatList commonTemp clips,
   [EngineCall.concatCall (buildConcatList commonTemp clips) outFile],
   !engineOk,
   if engineOk then some outFile else none⟩

/-- One sampled candidate as the analysis loop sees it: the duration the
probe returned (`none` = probe failure), the mapping the loudness analysis
returned (`none` = analysis failure), and the engine's answer for its
eventual encode. -/
structure CandidateInput where
  dur : Option ℚ
  loud : Option (List (String × String))
  engineOk : Bool

/-- The clip jobs planned from a candidate list: exactly the retained
candidates, in input order (insertion order of `loudness_results`). -/
def plannedJobs (cands : List CandidateInput) : List ClipJob :=
  (cands.filter (fun c => retainsCandidate c.dur c.loud)).map
    (fun c => ⟨c.loud.getD [], c.engineOk⟩)

/-- Number of candidates dropped before the encode stage (probe failure,
short duration, or loudness failure). -/
def selectionDrops (cands : List CandidateInput) : Nat :=
  (cands.filter (fun c => !retainsCandidate c.dur c.loud)).length

/-- The only count the final report prints (line 118): the `failed`
counter of the per-clip loop.  `none` when the loop raised and the report
line was never reached. -/
def runReportFailed (cands : List CandidateInput) : Option Nat :=
  match processJobs (plannedJobs cands) with
  | Except.ok (_, failed) => some failed
  | Except.error _ => none

/-- One sampled file as the whole-run model sees it: the two inspection
tool results and the engine's answer for its eventual encode. -/
structure SourceFileInput where
  probe : Except Unit String
  loud : Except Unit String
  engineOk : Bool

/-- How a run (past the pre-flight checks) terminates. -/
inductive RunTermination where
  | valueErrorAt (i : Nat)
  | keyErrorCommon
  | keyErrorClipAt (i : Nat)
  | commonEncodeFailed
  | completed (concatOk : Bool)
deriving DecidableEq

/-- Observable outcome of a run: how it ended, every path created inside
the workspace, how often the engine was invoked for the common clip, how
many per-clip encode jobs were attempted, the per-job failure counter, and
whether a final output file was produced. -/
structure RunModelResult where
  term : RunTermination
  created : List (List String)
  commonEngineCalls : Nat
  clipAttempts : Nat
  failedCount : Nat
  outputProduced : Bool

/-- The analysis loop of `main` (lines 90-97) over the sampled files,
enumerated from 0.  Returns `(crash, results, created)`: `crash = some i`
when `float` raised on file `i`'s probe output (uncaught, ends the run),
the retained `(duration, stats, engine)` triples in order, and the log
files written (the loudness log is written only when the analysis tool
fails). -/
def analysisLoopAux (logsDir : List String) :
    Nat → List SourceFileInput →
    List (ℚ × List (String × String) × Bool) → List (List String) →
    Option Nat × List (ℚ × List (String × String) × Bool) × List (List String)
  | _, [], results, created => (none, results, created)
  | i, f :: rest, results, created =>
    match get_video_duration f.probe with
    | DurationResult.raises => (some i, results, created)
    | DurationResult.unavailable => analysisLoopAux logsDir (i + 1) rest results created
    | DurationResult.val d =>
      if d ≠ 0 ∧ 80 ≤ d then
        match analyze_loudness f.loud with
        | none =>
          analysisLoopAux logsDir (i + 1) rest results
            (created ++ [pjoin logsDir (loudnessLogName i)])
        | some kvs =>
          if kvs.isEmpty then analysisLoopAux logsDir (i + 1) rest results created
          else analysisLoopAux logsDir (i + 1) rest (results ++ [(d, kvs, f.engineOk)]) created
      else analysisLoopAux logsDir (i + 1) rest results created

/-- The per-clip loop of the whole-run model with workspace tracking,
enumerated from 1.  Returns `(crash, clip list, created, failed,
attempts)`; a `KeyError` from the filter construction stops the loop
before the engine runs, otherwise the engine log is always written and a
success also creates the clip artifact. -/
def clipLoopAux (tempDir logsDir : List String) :
    Nat → List (ℚ × List (String × String) × Bool) →
    List (List String) → List (List String) → Nat → Nat →
    Option Nat × List (List String) × List (List String) × Nat × Nat
  | _, [], clips, created, failed, attempts => (none, clips, created, failed, attempts)
  | i, (_, kvs, eOk) :: rest, clips, created, failed, attempts =>
    match audio_filters kvs with
    | none => (some i, clips, created, failed, attempts)
    | some _ =>
      let log := pjoin logsDir (videoLogName i)
      let clipPath := pjoin tempDir (tempClipName i)
      if eOk then
        clipLoopAux tempDir logsDir (i + 1) rest (clips ++ [clipPath])
          (created ++ [log, clipPath]) failed (attempts + 1)
      else
        clipLoopAux tempDir logsDir (i + 1) rest clips (created ++ [log]) (failed + 1)
          (attempts + 1)

/-- The whole body of `main` after the pre-flight checks, inside the
temporary-workspace block (lines 81-129): the analysis loop, then the
common-clip re-encode — called at line 101 with the empty loudness mapping
`{}` — then the per-clip loop, then assembly.  Engine answers are the
oracles `commonEngineOk`, per-file `engineOk`, and `concatOk`. -/
def runPipeline (tempDir : List String) (files : List SourceFileInput)
    (commonEngineOk concatOk : Bool) : RunModelResult :=
  let logsDir := pjoin tempDir "logs"
  match analysisLoopAux logsDir 0 files [] [] with
  | (some i, _, created) => ⟨RunTermination.valueErrorAt i, created, 0, 0, 0, false⟩
  | (none, results, created) =>
    match audio_filters [] with
    | none => ⟨RunTermination.keyErrorCommon, created, 0, 0, 0, false⟩
    | some _ =>
      let createdC := created ++ [pjoin logsDir "common_clip.log"] ++
        (if commonEngineOk then [pjoin tempDir "common_clip.mp4"] else [])
      if commonEngineOk then
        match clipLoopAux tempDir logsDir 1 results [] createdC 0 0 with
        | (some i, _, createdD, failed, attempts) =>
          ⟨RunTermination.keyErrorClipAt i, createdD, 1, attempts, failed, false⟩
        | (none, _clips, createdD, failed, attempts) =>
          let createdE := createdD ++ [pjoin tempDir "concat_list.txt", pjoin logsDir "concat.log"]
          ⟨RunTermination.completed concatOk, createdE, 1, attempts, failed, concatOk⟩
      else ⟨RunTermination.commonEncodeFailed, createdC, 1, 0, 0, false⟩

/-- A probe result on which `get_video_duration` does not raise. -/
def durationProbeSafe (f : SourceFileInput) : Bool :=
  match get_video_duration f.probe with
  | DurationResult.raises => false
  | _ => true

/-- What persists after the run terminates: the workspace block removes
every path under `tempDir` on every exit path (the semantics of the
`TemporaryDirectory` context manager), and a produced output file is the
only path written outside it. -/
def remainingAfterRun (tempDir outFile : List String) (files : List SourceFileInput)
    (commonEngineOk concatOk : Bool) : List (List String) :=
  let r := runPipeline tempDir files commonEngineOk concatOk
  ((if r.outputProduced then [outFile] else []) ++ r.created).filter
    (fun p => !underDir tempDir p)

/-- Loudness statistics carrying all five fields the encode step reads. -/
def fullStats : List (String × String) :=
  [("input_i", "-21.5"), ("input_lra", "6.0"), ("input_tp", "-3.0"),
   ("input_thresh", "-31.8"), ("target_offset", "0.4")]

/-! Helper lemmas about the manifest builder. -/

theorem interleaveTail_len {α : Type} (common : α) (l : List α) :
    (interleaveTail common l).length = 2 * l.length := by
  induction l with
  | nil => rfl
  | cons x xs ih => simp [interleaveTail, ih]; omega

theorem interleaveTail_get_even {α : Type} (common : α) (l : List α) :
    ∀ j, (interleaveTail common l)[2 * j]? =
      if j < l.length then some common else none := by
  induction l with
  | nil => intro j; simp [interleaveTail]
  | cons x xs ih =>
    intro j
    cases j with
    | zero => simp [interleaveTail]
    | succ k =>
      have h2 : 2 * (k + 1) = 2 * k + 1 + 1 := by ring
      rw [h2]
      simpa [interleaveTail, Nat.succ_lt_succ_iff] using ih k

theorem interleaveTail_get_odd {α : Type} (common : α) (l : List α) :
    ∀ j, (interleaveTail common l)[2 * j + 1]? = l[j]? := by
  induction l with
  | nil => intro j; simp [interleaveTail]
  | cons x xs ih =>
    intro j
    cases j with
    | zero => simp [interleaveTail]
    | succ k =>
      have h2 : 2 * (k + 1) + 1 = 2 * k + 1 + 1 + 1 := by ring
      rw [h2]
      simpa [interleaveTail] using ih k

theorem interleaveTail_cnt {α : Type} [DecidableEq α] (common : α) (l : List α)
    (h : common ∉ l) : (interleaveTail common l).count common = l.length := by
  induction l with
  | nil => rfl
  | cons x xs ih =>
    rw [List.mem_cons, not_or] at h
    have hx : x ≠ common := fun hxe => h.1 hxe.symm
    simp [interleaveTail, List.count_cons, ih h.2, hx]

theorem buildConcatList_get_even {α : Type} (common : α) (clips : List α) :
    ∀ j, (buildConcatList common clips)[2 * j]? = clips[j]? := by
  intro j
  cases clips with
  | nil => simp [buildConcatList]
  | cons c rest =>
    cases j with
    | zero => simp [buildConcatList]
    | succ k =>
      have h2 : 2 * (k + 1) = 2 * k + 1 + 1 := by ring
      rw [h2]
      simpa [buildConcatList] using interleaveTail_get_odd common rest k

theorem buildConcatList_get_odd {α : Type} (common : α) (clips : List α) :
    ∀ j, j + 1 < clips.length → (buildConcatList common clips)[2 * j + 1]? = some common := by
  intro j hj
  cases clips with
  | nil => simp at hj
  | cons c rest =>
    have hlt : j < rest.length := by simpa using hj
    simp [buildConcatList, interleaveTail_get_even common rest j, hlt]

/-- Claim C1: for a run with n ≥ 1 successful segments the concat manifest
has exactly 2n−1 entries — the segments at the even positions in order,
the common-clip artifact at every interior odd position, hence exactly
once between consecutive segments and never first or last (the artifact
name differs from every segment path) — and for n = 0 it is empty. -/
theorem assembly_plan_structure (common : String) (clips : List String)
    (hne : clips ≠ []) (hfresh : common ∉ clips) :
    buildConcatList common ([] : List String) = [] ∧
    (buildConcatList common clips).length = 2 * clips.length - 1 ∧
    (∀ j, (buildConcatList common clips)[2 * j]? = clips[j]?) ∧
    (∀ j, j + 1 < clips.length → (buildConcatList common clips)[2 * j + 1]? = some common) ∧
    (buildConcatList common clips).count common = clips.length - 1 ∧
    (buildConcatList common clips)[0]? ≠ some common ∧
    (buildConcatList common clips)[2 * (clips.length - 1)]? ≠ some common := by
  have hlen0 : 0 < clips.length := List.length_pos.mpr hne
  refine ⟨rfl, ?_, buildConcatList_get_even common clips,
    buildConcatList_get_odd common clips, ?_, ?_, ?_⟩
  · cases clips with
    | nil => cases hne rfl
    | cons c rest =>
      simp [buildConcatList, interleaveTail_len]
      omega
  · cases clips with
    | nil => cases hne rfl
    | cons c rest =>
      rw [List.mem_cons, not_or] at hfresh
      have hc : ¬(c = common) := fun h => hfresh.1 h.symm
      simp [buildConcatList, List.count_cons, interleaveTail_cnt common rest hfresh.2, hc]
  · have h := buildConcatList_get_even common clips 0
    norm_num at h
    rw [h, List.getElem?_eq_getElem hlen0]
    intro heq
    have hcm : clips[0] = common := Option.some_inj.mp heq
    exact hfresh (hcm ▸ List.getElem_mem hlen0)
  · have hidx : clips.length - 1 < clips.length := by omega
    rw [buildConcatList_get_even common clips (clips.length - 1),
      List.getElem?_eq_getElem hidx]
    intro heq
    have hcm : clips[clips.length - 1] = common := Option.some_inj.mp heq
    exact hfresh (hcm ▸ List.getElem_mem hidx)

/-- Witness for C1 at common = cc, clips = [s1, s2]. -/
theorem assembly_plan_structure_witness :
    (buildConcatList "cc" ["s1", "s2"]).length = 2 * 2 - 1 ∧
    (buildConcatList "cc" ["s1", "s2"])[1]? = some "cc" ∧
    (buildConcatList "cc" ["s1", "s2"])[0]? ≠ some "cc" ∧
    (buildConcatList "cc" ["s1", "s2"]).count "cc" = 2 - 1 := by
  have h := assembly_plan_structure "cc" ["s1", "s2"] (by simp) (by simp)
  refine ⟨h.2.1, ?_, h.2.2.2.2.2.1, h.2.2.2.2.1⟩
  have hodd := h.2.2.2.1 0 (by norm_num)
  simpa using hodd

/-- Claim C2: every start offset the planner can draw for a candidate of
measured duration d ≥ 80 satisfies 10 ≤ s ≤ d − 70, hence
s + 60 + 10 ≤ d (60-second extraction plus 10-second trailing margin). -/
theorem clip_offset_invariant (d : ℚ) (s : ℤ) (hd : 80 ≤ d) (hs : s ∈ offsetRange d) :
    10 ≤ s ∧ (s : ℚ) ≤ d - 70 ∧ (s : ℚ) + 60 + 10 ≤ d := by
  rw [offsetRange, Finset.mem_Icc] at hs
  have h0 : (0 : ℚ) ≤ d := by linarith
  rw [pyInt] at hs
  rw [if_pos h0] at hs
  have h2 : (s : ℚ) ≤ (⌊d⌋ : ℚ) - 70 := by exact_mod_cast hs.2
  have h3 : ((⌊d⌋ : ℤ) : ℚ) ≤ d := Int.floor_le d
  exact ⟨hs.1, by linarith, by linarith⟩

/-- Witness for C2 at the boundary durations d = 80 (forced offset 10) and
d = 81 (maximal offset 11). -/
theorem clip_offset_invariant_witness :
    ((10 : ℤ) ∈ offsetRange 80 ∧ 10 ≤ (10 : ℤ) ∧ ((10 : ℤ) : ℚ) ≤ 80 - 70 ∧
      ((10 : ℤ) : ℚ) + 60 + 10 ≤ 80) ∧
    ((11 : ℤ) ∈ offsetRange 81 ∧ 10 ≤ (11 : ℤ) ∧ ((11 : ℤ) : ℚ) ≤ 81 - 70 ∧
      ((11 : ℤ) : ℚ) + 60 + 10 ≤ 81) := by
  have m80 : (10 : ℤ) ∈ offsetRange 80 := by
    rw [offsetRange, Finset.mem_Icc, pyInt, if_pos (by norm_num : (0 : ℚ) ≤ 80)]
    norm_num
  have m81 : (11 : ℤ) ∈ offsetRange 81 := by
    rw [offsetRange, Finset.mem_Icc, pyInt, if_pos (by norm_num : (0 : ℚ) ≤ 81)]
    norm_num
  exact ⟨⟨m80, clip_offset_invariant 80 10 (by norm_num) m80⟩,
    ⟨m81, clip_offset_invariant 81 11 (by norm_num) m81⟩⟩

/-- Claim C3, counterexample: a candidate whose duration probe succeeded
with 90 seconds and whose loudness analysis succeeded (the tool exited 0;
its output "stream mapping" contains no colon, so the parser returns the
empty mapping) is nevertheless dropped, because `if loudness_info:` tests
Python truthiness and the empty dict is falsy — refuting the claimed
"if and only if". -/
theorem candidate_selection_counterexample :
    (analyze_loudness (Except.ok "stream mapping")).isSome = true ∧
    (80 : ℚ) ≤ 90 ∧
    retainsCandidate (some 90) (analyze_loudness (Except.ok "stream mapping")) = false := by
  refine ⟨rfl, by norm_num, ?_⟩
  decide

/-- Claim C3 as amended: a sampled candidate reaches the clip-planning and
encode stage iff its duration probe succeeded with d ≥ 80 and its loudness
analysis succeeded with at least one parsed key/value line; in particular
no candidate with duration below 80 is ever planned. -/
theorem candidate_selection_amended (dur : Option ℚ) (loud : Option (List (String × String))) :
    retainsCandidate dur loud = true ↔
      ∃ d kvs, dur = some d ∧ 80 ≤ d ∧ loud = some kvs ∧ kvs ≠ [] := by
  cases dur with
  | none => simp [retainsCandidate]
  | some d =>
    cases loud with
    | none =>
      constructor
      · intro h
        simp only [retainsCandidate] at h
        split at h <;> simp at h
      · rintro ⟨d', kvs, -, -, h, -⟩
        simp at h
    | some kvs =>
      by_cases hd : d ≠ 0 ∧ 80 ≤ d
      · simp only [retainsCandidate, if_pos hd]
        constructor
        · intro h
          refine ⟨d, kvs, rfl, hd.2, rfl, ?_⟩
          intro hkv
          rw [hkv] at h
          simp at h
        · rintro ⟨d', kvs', hdd, -, hkk, hne⟩
          cases hdd
          cases hkk
          cases kvs with
          | nil => exact absurd rfl hne
          | cons a l => rfl
      · simp only [retainsCandidate, if_neg hd]
        constructor
        · intro h
          cases h
        · rintro ⟨d', kvs', hdd, h80, -, -⟩
          cases hdd
          exact absurd ⟨by intro h0; rw [h0] at h80; norm_num at h80, h80⟩ hd

/-- Claim C10, counterexample: ffprobe exiting 0 with output "N/A" (its
output for an unknown container duration) makes `float` raise an uncaught
ValueError — the probe does not return a typed unavailable result for
every possible tool output. -/
theorem duration_probe_raises_counterexample :
    get_video_duration (Except.ok "N/A") = DurationResult.raises := by decide

/-- Claim C10 as amended: the duration probe returns the typed unavailable
result exactly when the tool invocation fails and never raises then, but
raises exactly when the tool succeeds with output that is not a float
literal; the loudness analysis never raises — it returns a parsed mapping
exactly on tool success and the unavailable result on tool failure. -/
theorem measurement_adapter_amended (r : Except Unit String) :
    (get_video_duration r = DurationResult.unavailable ↔ r = Except.error ()) ∧
    (get_video_duration r = DurationResult.raises ↔
      ∃ s, r = Except.ok s ∧ pyFloat (trimStr s) = none) ∧
    ((analyze_loudness r).isSome = true ↔ ∃ s, r = Except.ok s) := by
  cases r with
  | error e =>
    cases e
    simp [get_video_duration, analyze_loudness]
  | ok s =>
    simp only [get_video_duration, analyze_loudness]
    cases hp : pyFloat (trimStr s) with
    | none => simp [hp]
    | some d => simp [hp]

/-- Claim C7: the common-clip encode step (line 101) passes the empty
loudness mapping, and the audio-filter construction of `reencode_videos`
then fails its very first key lookup — a guaranteed KeyError, refuting
"always find every key they access". -/
theorem common_clip_lookup_fails : audio_filters ([] : List (String × String)) = none := rfl

/-! Helper lemmas about the per-clip encode loop. -/

theorem filter_length_add {α : Type} (p : α → Bool) (l : List α) :
    (l.filter p).length + (l.filter (fun a => !p a)).length = l.length := by
  induction l with
  | nil => rfl
  | cons x xs ih =>
    cases hp : p x <;> simp [List.filter_cons, hp] <;> omega

theorem enumFrom_filter_len (l : List ClipJob) :
    ∀ i, ((l.enumFrom i).filter (fun p => p.2.engineOk)).length =
      (l.filter (fun j => j.engineOk)).length := by
  induction l with
  | nil => intro i; rfl
  | cons j rest ih =>
    intro i
    cases hj : j.engineOk <;>
      simp [List.enumFrom, List.filter_cons, hj, ih (i + 1)]

theorem processJobsAux_spec (jobs : List ClipJob)
    (hkeys : ∀ j ∈ jobs, (audio_filters j.stats).isSome = true) :
    ∀ i clips failed,
      processJobsAux i jobs clips failed =
        Except.ok
          (clips ++ ((jobs.enumFrom i).filter (fun p => p.2.engineOk)).map
            (fun p => tempClipName p.1),
           failed + (jobs.filter (fun j => !j.engineOk)).length) := by
  induction jobs with
  | nil => intro i clips failed; simp [processJobsAux, List.enumFrom]
  | cons j rest ih =>
    intro i clips failed
    have hj : (audio_filters j.stats).isSome = true := hkeys j (by simp)
    obtain ⟨v, hv⟩ := Option.isSome_iff_exists.mp hj
    have hrest : ∀ x ∈ rest, (audio_filters x.stats).isSome = true :=
      fun x hx => hkeys x (by simp [hx])
    have hstep : processJobsAux i (j :: rest) clips failed =
        (if j.engineOk then processJobsAux (i + 1) rest (clips ++ [tempClipName i]) failed
         else processJobsAux (i + 1) rest clips (failed + 1)) := by
      simp [processJobsAux, hv]
    cases heng : j.engineOk with
    | true =>
      rw [hstep, heng]
      simp only [if_true]
      rw [ih hrest (i + 1) (clips ++ [tempClipName i]) failed]
      simp [List.enumFrom, List.filter_cons, heng, List.append_assoc]
    | false =>
      rw [hstep, heng]
      rw [if_neg (by simp)]
      rw [ih hrest (i + 1) clips (failed + 1)]
      simp [List.enumFrom, List.filter_cons, heng]
      omega

set_option maxHeartbeats 1600000 in
/-- Claim C6: per-clip encode failures are isolated — when no job's
statistics trip the (separately reported) KeyError, the loop finishes on
every input: every job is attempted, the failure counter is exactly the
number of engine failures, the clip list is exactly the successful jobs'
artifacts in planning order, and assembly then produces the output file
whenever at least one segment succeeded and the concatenation engine call
succeeds. -/
theorem per_clip_failure_isolation (jobs : List ClipJob) (commonTemp outFile : String)
    (concatOk : Bool)
    (hkeys : ∀ j ∈ jobs, (audio_filters j.stats).isSome = true) :
    ∃ clips failed,
      processJobs jobs = Except.ok (clips, failed) ∧
      failed = (jobs.filter (fun j => !j.engineOk)).length ∧
      clips = ((jobs.enumFrom 1).filter (fun p => p.2.engineOk)).map (fun p => tempClipName p.1) ∧
      clips.length + failed = jobs.length ∧
      (concatOk = true → clips ≠ [] →
        (sequencerStage commonTemp clips outFile concatOk).output = some outFile) := by
  refine ⟨((jobs.enumFrom 1).filter (fun p => p.2.engineOk)).map (fun p => tempClipName p.1),
    (jobs.filter (fun j => !j.engineOk)).length, ?_, rfl, rfl, ?_, ?_⟩
  · rw [processJobs, processJobsAux_spec jobs hkeys 1 [] 0]
    simp
  · rw [List.length_map, enumFrom_filter_len jobs 1]
    have := filter_length_add (fun j => j.engineOk) jobs
    omega
  · intro hc _hne
    simp [sequencerStage, hc]

/-- Witness for C6: three planned jobs with complete statistics, the
second failing its encode. -/
theorem per_clip_failure_isolation_witness :
    ∃ clips failed,
      processJobs ([⟨fullStats, true⟩, ⟨fullStats, false⟩, ⟨fullStats, true⟩] : List ClipJob) =
        Except.ok (clips, failed) ∧
      failed = (([⟨fullStats, true⟩, ⟨fullStats, false⟩, ⟨fullStats, true⟩] : List ClipJob).filter
        (fun j => !j.engineOk)).length ∧
      clips = ((([⟨fullStats, true⟩, ⟨fullStats, false⟩, ⟨fullStats, true⟩] : List ClipJob).enumFrom 1).filter
        (fun p => p.2.engineOk)).map (fun p => tempClipName p.1) ∧
      clips.length + failed =
        ([⟨fullStats, true⟩, ⟨fullStats, false⟩, ⟨fullStats, true⟩] : List ClipJob).length ∧
      (true = true → clips ≠ [] →
        (sequencerStage "cc" clips "out.mp4" true).output = some "out.mp4") :=
  per_clip_failure_isolation ([⟨fullStats, true⟩, ⟨fullStats, false⟩, ⟨fullStats, true⟩] : List ClipJob)
    "cc" "out.mp4" true (by decide)

/-- Claim C9, counterexample: a run with one candidate, dropped for its
50-second duration.  One candidate was considered and dropped, yet the
only number the final report states — the per-clip failure counter — is
0; dropped candidates are not counted anywhere and no considered or
succeeded count is reported. -/
theorem dropped_candidates_unreported :
    selectionDrops [⟨some 50, some [("input_i", "-20.0")], true⟩] = 1 ∧
    runReportFailed [⟨some 50, some [("input_i", "-20.0")], true⟩] = some 0 := by
  constructor <;> decide

/-- Claim C9 as amended: candidates dropped before encoding are not
counted and not reflected in the final report.  The report states only
the per-clip encode failure count, which is invariant under adding
dropped candidates, while the drop count grows by each one. -/
theorem report_counts_amended (cands extra : List CandidateInput)
    (hextra : ∀ c ∈ extra, retainsCandidate c.dur c.loud = false) :
    runReportFailed (cands ++ extra) = runReportFailed cands ∧
    selectionDrops (cands ++ extra) = selectionDrops cands + extra.length := by
  have hfe : extra.filter (fun c => retainsCandidate c.dur c.loud) = [] :=
    List.filter_eq_nil_iff.mpr (fun c hc => by simp [hextra c hc])
  have hfs : extra.filter (fun c => !retainsCandidate c.dur c.loud) = extra :=
    List.filter_eq_self.mpr (fun c hc => by simp [hextra c hc])
  constructor
  · unfold runReportFailed plannedJobs
    rw [List.filter_append, hfe, List.append_nil]
  · unfold selectionDrops
    rw [List.filter_append, List.length_append, hfs]

/-- Witness for C9's amended claim: appending one dropped candidate. -/
theorem report_counts_amended_witness :
    runReportFailed ([] ++ [⟨some 50, none, true⟩]) = runReportFailed [] ∧
    selectionDrops ([] ++ [⟨some 50, none, true⟩]) = selectionDrops [] + 1 :=
  report_counts_amended [] [⟨some 50, none, true⟩] (by decide)

/-! Helper lemmas about the whole-run model. -/

theorem audio_filters_nil : audio_filters ([] : List (String × String)) = none := rfl

theorem analysisLoopAux_completes (logsDir : List String) (files : List SourceFileInput)
    (h : ∀ f ∈ files, durationProbeSafe f = true) :
    ∀ i results created, (analysisLoopAux logsDir i files results created).1 = none := by
  induction files with
  | nil => intro i results created; rfl
  | cons f rest ih =>
    intro i results created
    have hf : durationProbeSafe f = true := h f (by simp)
    have hrest : ∀ x ∈ rest, durationProbeSafe x = true := fun x hx => h x (by simp [hx])
    cases hgd : get_video_duration f.probe with
    | raises => simp [durationProbeSafe, hgd] at hf
    | unavailable => simp [analysisLoopAux, hgd, ih hrest]
    | val d =>
      by_cases hd : d ≠ 0 ∧ 80 ≤ d
      · cases hl : analyze_loudness f.loud with
        | none => simp [analysisLoopAux, hgd, hd, hl, ih hrest]
        | some kvs =>
          cases hk : kvs.isEmpty <;> simp [analysisLoopAux, hgd, hd, hl, hk, ih hrest]
      · simp [analysisLoopAux, hgd, hd, ih hrest]

theorem analysisLoopAux_created (logsDir : List String) (files : List SourceFileInput) :
    ∀ i results created p, p ∈ (analysisLoopAux logsDir i files results created).2.2 →
      p ∈ created ∨ ∃ name, p = pjoin logsDir name := by
  induction files with
  | nil => intro i results created p hp; exact Or.inl hp
  | cons f rest ih =>
    intro i results created p hp
    cases hgd : get_video_duration f.probe with
    | raises =>
      simp [analysisLoopAux, hgd] at hp
      exact Or.inl hp
    | unavailable =>
      simp only [analysisLoopAux, hgd] at hp
      exact ih _ _ _ p hp
    | val d =>
      by_cases hd : d ≠ 0 ∧ 80 ≤ d
      · cases hl : analyze_loudness f.loud with
        | none =>
          simp only [analysisLoopAux, hgd, hl, if_pos hd] at hp
          rcases ih _ _ _ p hp with hin | hex
          · rcases List.mem_append.mp hin with h1 | h2
            · exact Or.inl h1
            · exact Or.inr ⟨loudnessLogName i, by simpa using h2⟩
          · exact Or.inr hex
        | some kvs =>
          cases hk : kvs.isEmpty <;>
            (simp only [analysisLoopAux, hgd, hl, if_pos hd, hk, Bool.false_eq_true,
              if_false, if_true] at hp; exact ih _ _ _ p hp)
      · simp only [analysisLoopAux, hgd, if_neg hd] at hp
        exact ih _ _ _ p hp

theorem underDir_append (d t : List String) : underDir d (d ++ t) = true := by
  simp [underDir, List.take_left]

theorem runPipeline_created_under (tempDir : List String) (files : List SourceFileInput)
    (cOk catOk : Bool) :
    ∀ p ∈ (runPipeline tempDir files cOk catOk).created, underDir tempDir p = true := by
  intro p hp
  rcases hres : analysisLoopAux (pjoin tempDir "logs") 0 files [] [] with ⟨o, results, created⟩
  have hcr : ∀ q ∈ created, underDir tempDir q = true := by
    intro q hq
    have h := analysisLoopAux_created (pjoin tempDir "logs") files 0 [] [] q
    rw [hres] at h
    rcases h hq with hin | ⟨name, hname⟩
    · cases hin
    · rw [hname]
      show underDir tempDir ((tempDir ++ ["logs"]) ++ [name]) = true
      rw [List.append_assoc]
      exact underDir_append tempDir _
  cases o with
  | some i =>
    simp only [runPipeline] at hp
    rw [hres] at hp
    exact hcr p (by simpa using hp)
  | none =>
    simp only [runPipeline] at hp
    rw [hres] at hp
    rw [audio_filters_nil] at hp
    exact hcr p (by simpa using hp)

theorem runPipeline_no_output (tempDir : List String) (files : List SourceFileInput)
    (cOk catOk : Bool) :
    (runPipeline tempDir files cOk catOk).outputProduced = false := by
  rcases hres : analysisLoopAux (pjoin tempDir "logs") 0 files [] [] with ⟨o, results, created⟩
  cases o with
  | some i =>
    simp only [runPipeline]
    rw [hres]
  | none =>
    simp only [runPipeline]
    rw [hres, audio_filters_nil]

/-- Claim C8: every artifact a run creates lies inside the temporary
workspace, so the scoped workspace removal performed on every exit path
(the `with TemporaryDirectory` block) leaves nothing behind; in this model
no run even reaches output production (the common-clip KeyError ends every
run first), so after cleanup no created path at all persists. -/
theorem workspace_cleanup (tempDir outFile : List String) (files : List SourceFileInput)
    (commonEngineOk concatOk : Bool) :
    ((runPipeline tempDir files commonEngineOk concatOk).created).all
      (fun p => underDir tempDir p) = true ∧
    remainingAfterRun tempDir outFile files commonEngineOk concatOk = [] := by
  refine ⟨List.all_eq_true.mpr (runPipeline_created_under tempDir files commonEngineOk concatOk), ?_⟩
  unfold remainingAfterRun
  dsimp only
  rw [runPipeline_no_output tempDir files commonEngineOk concatOk]
  simp only [if_false, List.nil_append, Bool.false_eq_true]
  rw [List.filter_eq_nil_iff]
  intro p hp
  rw [runPipeline_created_under tempDir files commonEngineOk concatOk p hp]
  simp

/-- Claim C5: in every run that passes the pre-flight checks and whose
duration probes do not raise, the common-clip step is reached exactly once
before any per-clip job — but contrary to the claim it is never performed:
building its encode command raises KeyError on the empty loudness mapping
passed at line 101, so the engine is invoked zero times for the common
clip and the run aborts there with no per-clip job attempted, a failure
counter of 0, and no output file. -/
theorem common_step_keyerror (tempDir : List String) (files : List SourceFileInput)
    (commonEngineOk concatOk : Bool)
    (h : ∀ f ∈ files, durationProbeSafe f = true) :
    (runPipeline tempDir files commonEngineOk concatOk).term = RunTermination.keyErrorCommon ∧
    (runPipeline tempDir files commonEngineOk concatOk).commonEngineCalls = 0 ∧
    (runPipeline tempDir files commonEngineOk concatOk).clipAttempts = 0 ∧
    (runPipeline tempDir files commonEngineOk concatOk).failedCount = 0 ∧
    (runPipeline tempDir files commonEngineOk concatOk).outputProduced = false := by
  rcases hres : analysisLoopAux (pjoin tempDir "logs") 0 files [] [] with ⟨o, results, created⟩
  have ho : o = none := by
    have hc := analysisLoopAux_completes (pjoin tempDir "logs") files h 0 [] []
    rw [hres] at hc
    exact hc
  subst ho
  simp only [runPipeline]
  rw [hres, audio_filters_nil]
  exact ⟨rfl, rfl, rfl, rfl, rfl⟩

/-- Witness for C5: a concrete run (one file whose probe fails) reaching
the common-clip step. -/
theorem common_step_keyerror_witness :
    (runPipeline [".tmp"] [⟨Except.error (), Except.error (), true⟩] true true).term =
      RunTermination.keyErrorCommon ∧
    (runPipeline [".tmp"] [⟨Except.error (), Except.error (), true⟩] true true).commonEngineCalls = 0 ∧
    (runPipeline [".tmp"] [⟨Except.error (), Except.error (), true⟩] true true).clipAttempts = 0 ∧
    (runPipeline [".tmp"] [⟨Except.error (), Except.error (), true⟩] true true).failedCount = 0 ∧
    (runPipeline [".tmp"] [⟨Except.error (), Except.error (), true⟩] true true).outputProduced = false :=
  common_step_keyerror [".tmp"] [⟨Except.error (), Except.error (), true⟩] true true (by decide)

/-- Claim C4, counterexample: with zero successful segments the assembly
stage still invokes the external engine for concatenation (there is no
emptiness guard before line 127), refuting "the external engine is not
invoked". -/
theorem zero_segments_counterexample :
    (sequencerStage "cc" [] "out.mp4" false).calls = [EngineCall.concatCall [] "out.mp4"] ∧
    (sequencerStage "cc" [] "out.mp4" false).calls ≠ [] := by
  constructor
  · rfl
  · decide

/-- Claim C4 as amended: when zero segments succeeded the assembly plan is
empty, yet the engine IS invoked once on the empty manifest; the run
reports a concatenation failure, and lacks an output file, exactly when
that engine invocation fails. -/
theorem zero_segments_amended (commonTemp outFile : String) (engineOk : Bool) :
    (sequencerStage commonTemp [] outFile engineOk).manifest = [] ∧
    (sequencerStage commonTemp [] outFile engineOk).calls =
      [EngineCall.concatCall [] outFile] ∧
    ((sequencerStage commonTemp [] outFile engineOk).failureReported = true ↔
      engineOk = false) ∧
    ((sequencerStage commonTemp [] outFile engineOk).output = none ↔ engineOk = false) := by
  cases engineOk <;> simp [sequencerStage, buildConcatList]
